import Mathlib

/-!
Verification of the X-ray pixel transform and view-state wiring.

Shallow embedding of the algorithmic core of the repository: the
`applyXRayEffect` pixel loop of `XRayProcessor` (inversion followed by a
1.5× contrast stretch on a `Uint8ClampedArray`), the mock-analysis
confidence computation of `processImage`, and the view-state transitions
`handleImageUpload` / `resetProcessor`.

Channel values are bytes modelled as `ℕ`; the JavaScript floating-point
arithmetic of the loop body only ever produces multiples of 1/2 in
[-64, 318.5], all exactly representable, so it is modelled exactly by `ℚ`.
Stores into a `Uint8ClampedArray` follow the ECMAScript `ToUint8Clamp`
conversion: clamp to [0, 255], then round to the nearest integer with ties
going to the even neighbour.
-/

/-- Round a rational to the nearest integer, ties to even, as the
ECMAScript `ToUint8Clamp` operation does for non-integral values. -/
def roundTiesEven (q : ℚ) : ℤ :=
  if q - ⌊q⌋ = 1/2 then (if 2 ∣ ⌊q⌋ then ⌊q⌋ else ⌊q⌋ + 1) else round q

/-- ECMAScript `ToUint8Clamp`: the byte actually stored by an assignment
`data[i] = q` on a `Uint8ClampedArray`. -/
def toUint8Clamp (q : ℚ) : ℕ :=
  if q ≤ 0 then 0 else if 255 ≤ q then 255 else (roundTiesEven q).toNat

/-- `Math.min 255 q` on non-NaN arguments. -/
def minQ (a b : ℚ) : ℚ := if a ≤ b then a else b

/-- `Math.max 0 q` on non-NaN arguments. -/
def maxQ (a b : ℚ) : ℚ := if a ≤ b then b else a

/-- `Math.max(0, Math.min(255, q))`: the explicit clamp in the loop body. -/
def clampQ (q : ℚ) : ℚ := maxQ 0 (minQ 255 q)

/-- The contrast expression `(n - 128) * 1.5 + 128` of the loop body. -/
def contrastRaw (n : ℚ) : ℚ := (n - 128) * (3/2) + 128

/-- The byte stored by `data[i] = 255 - data[i]` (the inversion write). -/
def invStore (v : ℕ) : ℕ := toUint8Clamp (255 - (v : ℚ))

/-- The byte stored by
`data[i] = Math.max(0, Math.min(255, (data[i] - 128) * 1.5 + 128))`
(the contrast write). -/
def contrastStore (v : ℕ) : ℕ := toUint8Clamp (clampQ (contrastRaw (v : ℚ)))

/-- Net effect of the loop body on one colour channel: the contrast write
applied to the result of the inversion write at the same index. -/
def xrayChannel (v : ℕ) : ℕ := contrastStore (invStore v)

/-- The spec's per-channel formula `clamp(0,255, (255-v-128)*1.5+128)`,
as an exact rational (no rounding). -/
def clampFormula (v : ℕ) : ℚ := clampQ (contrastRaw (255 - (v : ℚ)))

/-! ## The buffer-level loop

`applyXRayEffect` draws the image, reads its `ImageData` (a fresh copy of
the pixel bytes), and runs

```
for (let i = 0; i < data.length; i += 4) {
  data[i]     = 255 - data[i]
  data[i + 1] = 255 - data[i + 1]
  data[i + 2] = 255 - data[i + 2]
  data[i]     = Math.max(0, Math.min(255, (data[i] - 128) * 1.5 + 128))
  data[i + 1] = Math.max(0, Math.min(255, (data[i + 1] - 128) * 1.5 + 128))
  data[i + 2] = Math.max(0, Math.min(255, (data[i + 2] - 128) * 1.5 + 128))
}
```

Each iteration is six sequential in-place writes. A read of an index at or
past the end of a typed array yields `undefined` and the corresponding
write is dropped, which `List.set` models exactly (out-of-range `set` is
the identity), so the buffer is a `List ℕ` and reads use `getD`. -/

/-- One in-place store `data[j] = f(data[j])`, reading the current
contents of the buffer at `j`. -/
def writeWith (f : ℕ → ℕ) (l : List ℕ) (j : ℕ) : List ℕ :=
  l.set j (f (l.getD j 0))

/-- One iteration of the loop body at base index `i`: the three inversion
writes at `i`, `i+1`, `i+2`, then the three contrast writes. -/
def xrayBody (l : List ℕ) (i : ℕ) : List ℕ :=
  writeWith contrastStore
    (writeWith contrastStore
      (writeWith contrastStore
        (writeWith invStore (writeWith invStore (writeWith invStore l i) (i + 1)) (i + 2))
        i)
      (i + 1))
    (i + 2)

theorem writeWith_length (f : ℕ → ℕ) (l : List ℕ) (j : ℕ) :
    (writeWith f l j).length = l.length := by
  simp [writeWith]

theorem xrayBody_length (l : List ℕ) (i : ℕ) :
    (xrayBody l i).length = l.length := by
  simp [xrayBody, writeWith_length]

/-- The `for (let i = 0; i < data.length; i += 4)` loop. -/
def xrayLoop (l : List ℕ) (i : ℕ) : List ℕ :=
  if h : i < l.length then xrayLoop (xrayBody l i) (i + 4) else l
termination_by l.length - i
decreasing_by simp only [xrayBody_length]; omega

/-- The pixel transform of `applyXRayEffect`, acting on the RGBA byte
buffer: run the loop from index 0. -/
def applyXRayEffect (l : List ℕ) : List ℕ := xrayLoop l 0

/-- Per-index behaviour claimed by the spec: alpha bytes (index ≡ 3 mod 4)
pass through, colour bytes go through `xrayChannel`. -/
def xrayChannelAt (j v : ℕ) : ℕ := if j % 4 = 3 then v else xrayChannel v

/-- Pure fresh-buffer transform, following the spec's description: a new
buffer whose `k`-th byte is a function of the input's `k`-th byte alone.
`j` is the index of the first element of the remaining list. -/
def pureFrom : ℕ → List ℕ → List ℕ
  | _, [] => []
  | j, v :: rest => xrayChannelAt j v :: pureFrom (j + 1) rest

/-- The spec-side pure transform over whole buffers. -/
def applyXRayPure (l : List ℕ) : List ℕ := pureFrom 0 l

/-! ## Channel-level value lemmas -/

theorem toUint8Clamp_natCast (n : ℕ) (h : n ≤ 255) : toUint8Clamp (n : ℚ) = n := by
  unfold toUint8Clamp roundTiesEven
  rcases Nat.eq_zero_or_pos n with h0 | h0
  · subst h0; norm_num
  · have hpos : (0 : ℚ) < n := by exact_mod_cast h0
    rw [if_neg (not_le_of_lt hpos)]
    by_cases h255 : n = 255
    · subst h255; norm_num
    · have hlt : (n : ℚ) < 255 := by exact_mod_cast lt_of_le_of_ne h h255
      rw [if_neg (not_le_of_lt hlt), Int.floor_natCast,
        if_neg (by push_cast; norm_num), round_natCast]
      exact Int.toNat_natCast n

theorem contrastStore_255 : contrastStore 255 = 255 := by
  norm_num [contrastStore, contrastRaw, clampQ, minQ, maxQ, toUint8Clamp, roundTiesEven]

theorem contrastStore_0 : contrastStore 0 = 0 := by
  norm_num [contrastStore, contrastRaw, clampQ, minQ, maxQ, toUint8Clamp, roundTiesEven]

theorem contrastStore_127 : contrastStore 127 = 126 := by
  have hf : ⌊(253/2 : ℚ)⌋ = 126 := by norm_num [Int.floor_eq_iff]
  norm_num [contrastStore, contrastRaw, clampQ, minQ, maxQ, toUint8Clamp, roundTiesEven, hf]
  decide

theorem contrastStore_129 : contrastStore 129 = 130 := by
  have hf : ⌊(259/2 : ℚ)⌋ = 129 := by norm_num [Int.floor_eq_iff]
  norm_num [contrastStore, contrastRaw, clampQ, minQ, maxQ, toUint8Clamp, roundTiesEven, hf]
  decide

/-- On byte input the inversion write stores exactly `255 - v`. -/
theorem invStore_eq (v : ℕ) (h : v ≤ 255) : invStore v = 255 - v := by
  have hcast : (255 : ℚ) - (v : ℚ) = ((255 - v : ℕ) : ℚ) := by
    rw [Nat.cast_sub h]; norm_num
  rw [invStore, hcast, toUint8Clamp_natCast _ (by omega)]

theorem xrayChannel_0 : xrayChannel 0 = 255 := by
  rw [xrayChannel, invStore_eq 0 (by omega)]; exact contrastStore_255

theorem xrayChannel_128 : xrayChannel 128 = 126 := by
  rw [xrayChannel, invStore_eq 128 (by omega)]; exact contrastStore_127

theorem xrayChannel_255 : xrayChannel 255 = 0 := by
  rw [xrayChannel, invStore_eq 255 (by omega)]; exact contrastStore_0

theorem xrayChannel_126 : xrayChannel 126 = 130 := by
  rw [xrayChannel, invStore_eq 126 (by omega)]; exact contrastStore_129

/-- Every clamped store yields a byte: `toUint8Clamp` never exceeds 255. -/
theorem toUint8Clamp_le (q : ℚ) : toUint8Clamp q ≤ 255 := by
  unfold toUint8Clamp roundTiesEven
  split_ifs with h0 h255 htie heven
  · omega
  · omega
  · have hfl : ⌊q⌋ ≤ 254 := by
      have : ⌊q⌋ ≤ ⌊(255 : ℚ)⌋ := Int.floor_le_floor (le_of_lt (not_le.mp h255))
      rw [show ⌊(255 : ℚ)⌋ = 255 by norm_num] at this
      by_contra hc
      push_neg at hc
      have h255' : ⌊q⌋ = 255 := by omega
      rw [h255'] at htie
      have : q = 255 + 1/2 := by linarith [htie]
      rw [this] at h255; norm_num at h255
    omega
  · have hfl : ⌊q⌋ ≤ 254 := by
      have : ⌊q⌋ ≤ ⌊(255 : ℚ)⌋ := Int.floor_le_floor (le_of_lt (not_le.mp h255))
      rw [show ⌊(255 : ℚ)⌋ = 255 by norm_num] at this
      by_contra hc
      push_neg at hc
      have h255' : ⌊q⌋ = 255 := by omega
      rw [h255'] at htie
      have : q = 255 + 1/2 := by linarith [htie]
      rw [this] at h255; norm_num at h255
    omega
  · have hq : q < 255 := not_le.mp h255
    rw [round_eq]
    have : ⌊q + 1/2⌋ ≤ ⌊(255 + 1/2 : ℚ)⌋ := Int.floor_le_floor (by linarith)
    rw [show ⌊(255 + 1/2 : ℚ)⌋ = 255 by norm_num [Int.floor_eq_iff]] at this
    omega

/-- Colour outputs of the loop body are always bytes. -/
theorem contrastStore_le (v : ℕ) : contrastStore v ≤ 255 :=
  toUint8Clamp_le _

/-! ## Pointwise behaviour of the loop -/

theorem getD_set_self (l : List ℕ) (j a : ℕ) (h : j < l.length) :
    (l.set j a).getD j 0 = a := by
  simp [List.getD_eq_getElem?_getD, List.getElem?_set_self h]

theorem getD_set_ne (l : List ℕ) (i j a : ℕ) (h : i ≠ j) :
    (l.set i a).getD j 0 = l.getD j 0 := by
  simp [List.getD_eq_getElem?_getD, List.getElem?_set_ne h]

/-- What one in-place store leaves at index `k`. -/
theorem writeWith_getD (f : ℕ → ℕ) (l : List ℕ) (j k : ℕ) :
    (writeWith f l j).getD k 0 =
      if k = j ∧ j < l.length then f (l.getD j 0) else l.getD k 0 := by
  by_cases hk : k = j
  · subst hk
    by_cases hj : k < l.length
    · rw [writeWith, getD_set_self _ _ _ hj, if_pos ⟨rfl, hj⟩]
    · rw [writeWith, List.set_eq_of_length_le (by omega), if_neg (by tauto)]
  · rw [writeWith, getD_set_ne _ _ _ _ (fun hj => hk hj.symm), if_neg (by tauto)]

theorem writeWith_getD_ne (f : ℕ → ℕ) (l : List ℕ) (j k : ℕ) (h : k ≠ j) :
    (writeWith f l j).getD k 0 = l.getD k 0 := by
  rw [writeWith, getD_set_ne _ _ _ _ (fun he => h he.symm)]

theorem writeWith_getD_self (f : ℕ → ℕ) (l : List ℕ) (j : ℕ) (h : j < l.length) :
    (writeWith f l j).getD j 0 = f (l.getD j 0) := by
  rw [writeWith, getD_set_self _ _ _ h]

/-- A store past the end of the typed array is dropped. -/
theorem writeWith_oob (f : ℕ → ℕ) (l : List ℕ) (j : ℕ) (h : l.length ≤ j) :
    writeWith f l j = l := by
  rw [writeWith, List.set_eq_of_length_le h]

theorem getD_oob (l : List ℕ) (k : ℕ) (h : l.length ≤ k) : l.getD k 0 = 0 := by
  simp [List.getD_eq_getElem?_getD, List.getElem?_eq_none h]

/-- What one loop iteration leaves at index `k`: the three colour bytes of
the pixel at base `i` become `xrayChannel` of their old values, everything
else is untouched. -/
theorem xrayBody_getD (l : List ℕ) (i k : ℕ) :
    (xrayBody l i).getD k 0 =
      if (k = i ∨ k = i + 1 ∨ k = i + 2) ∧ k < l.length then
        xrayChannel (l.getD k 0)
      else l.getD k 0 := by
  by_cases hl : k < l.length
  · by_cases hk0 : k = i
    · rw [hk0] at hl ⊢
      rw [if_pos ⟨Or.inl rfl, hl⟩]
      simp only [xrayBody]
      rw [writeWith_getD_ne _ _ _ _ (by omega),
        writeWith_getD_ne _ _ _ _ (by omega),
        writeWith_getD_self _ _ _ (by simp only [writeWith_length]; omega),
        writeWith_getD_ne _ _ _ _ (by omega),
        writeWith_getD_ne _ _ _ _ (by omega),
        writeWith_getD_self _ _ _ hl]
      rfl
    · by_cases hk1 : k = i + 1
      · rw [hk1] at hl ⊢
        rw [if_pos ⟨Or.inr (Or.inl rfl), hl⟩]
        simp only [xrayBody]
        rw [writeWith_getD_ne _ _ _ _ (by omega),
          writeWith_getD_self _ _ _ (by simp only [writeWith_length]; omega),
          writeWith_getD_ne _ _ _ _ (by omega),
          writeWith_getD_ne _ _ _ _ (by omega),
          writeWith_getD_self _ _ _ (by simp only [writeWith_length]; omega),
          writeWith_getD_ne _ _ _ _ (by omega)]
        rfl
      · by_cases hk2 : k = i + 2
        · rw [hk2] at hl ⊢
          rw [if_pos ⟨Or.inr (Or.inr rfl), hl⟩]
          simp only [xrayBody]
          rw [writeWith_getD_self _ _ _ (by simp only [writeWith_length]; omega),
            writeWith_getD_ne _ _ _ _ (by omega),
            writeWith_getD_ne _ _ _ _ (by omega),
            writeWith_getD_self _ _ _ (by simp only [writeWith_length]; omega),
            writeWith_getD_ne _ _ _ _ (by omega),
            writeWith_getD_ne _ _ _ _ (by omega)]
          rfl
        · rw [if_neg (by omega)]
          simp only [xrayBody]
          rw [writeWith_getD_ne _ _ _ _ (by omega),
            writeWith_getD_ne _ _ _ _ (by omega),
            writeWith_getD_ne _ _ _ _ (by omega),
            writeWith_getD_ne _ _ _ _ (by omega),
            writeWith_getD_ne _ _ _ _ (by omega),
            writeWith_getD_ne _ _ _ _ (by omega)]
  · rw [if_neg (by omega), getD_oob _ _ (by simp only [xrayBody_length]; omega),
      getD_oob _ _ (by omega)]

theorem xrayLoop_length (l : List ℕ) (i : ℕ) : (xrayLoop l i).length = l.length := by
  induction l, i using xrayLoop.induct with
  | case1 l i h ih => rw [xrayLoop, dif_pos h, ih, xrayBody_length]
  | case2 l i h => rw [xrayLoop, dif_neg h]

/-- Running the loop from a pixel-aligned index `i` transforms exactly the
colour bytes at indices ≥ `i` and leaves everything else alone. -/
theorem xrayLoop_getD (l : List ℕ) (i : ℕ) :
    i % 4 = 0 → ∀ k, k < l.length →
      (xrayLoop l i).getD k 0 =
        if i ≤ k ∧ k % 4 ≠ 3 then xrayChannel (l.getD k 0) else l.getD k 0 := by
  induction l, i using xrayLoop.induct with
  | case1 l i h ih =>
    intro hi k hk
    rw [xrayLoop, dif_pos h, ih (by omega) k (by rw [xrayBody_length]; exact hk),
      xrayBody_getD]
    split_ifs <;> first | rfl | omega
  | case2 l i h =>
    intro hi k hk
    rw [xrayLoop, dif_neg h, if_neg (by omega)]

theorem applyXRayEffect_length (l : List ℕ) :
    (applyXRayEffect l).length = l.length :=
  xrayLoop_length l 0

/-- Pointwise behaviour of the whole transform: alpha bytes pass through,
colour bytes are `xrayChannel` of the input byte at the same index. -/
theorem applyXRayEffect_getD (l : List ℕ) (k : ℕ) (hk : k < l.length) :
    (applyXRayEffect l).getD k 0 = xrayChannelAt k (l.getD k 0) := by
  rw [applyXRayEffect, xrayLoop_getD l 0 rfl k hk, xrayChannelAt]
  by_cases h3 : k % 4 = 3
  · rw [if_neg (by omega), if_pos h3]
  · rw [if_pos ⟨Nat.zero_le k, h3⟩, if_neg h3]

theorem pureFrom_length (j : ℕ) (l : List ℕ) : (pureFrom j l).length = l.length := by
  induction l generalizing j with
  | nil => rfl
  | cons v rest ih => simp [pureFrom, ih]

theorem pureFrom_getD (l : List ℕ) :
    ∀ j k, k < l.length → (pureFrom j l).getD k 0 = xrayChannelAt (j + k) (l.getD k 0) := by
  induction l with
  | nil => intro j k hk; simp at hk
  | cons v rest ih =>
    intro j k hk
    cases k with
    | zero => simp [pureFrom]
    | succ k =>
      have hr : k < rest.length := by simpa using hk
      rw [pureFrom, List.getD_cons_succ, List.getD_cons_succ, ih (j + 1) k hr]
      have : j + 1 + k = j + (k + 1) := by omega
      rw [this]

theorem applyXRayPure_length (l : List ℕ) : (applyXRayPure l).length = l.length :=
  pureFrom_length 0 l

theorem applyXRayPure_getD (l : List ℕ) (k : ℕ) (hk : k < l.length) :
    (applyXRayPure l).getD k 0 = xrayChannelAt k (l.getD k 0) := by
  rw [applyXRayPure, pureFrom_getD l 0 k hk, Nat.zero_add]

theorem getElem_eq_getD (l : List ℕ) (k : ℕ) (h : k < l.length) :
    l[k] = l.getD k 0 := by
  rw [List.getD_eq_getElem?_getD, List.getElem?_eq_getElem h]
  rfl

/-! ## Derived facts about whole-buffer runs -/

theorem applyXRayEffect_nil : applyXRayEffect [] = [] := by
  rw [applyXRayEffect, xrayLoop]
  simp

/-- A buffer whose length is not a multiple of 4 is still processed: the
trailing partial pixel's bytes are transformed like colour bytes. -/
theorem applyXRayEffect_malformed : applyXRayEffect [0, 0, 0] = [255, 255, 255] := by
  apply List.ext_getElem (by rw [applyXRayEffect_length]; rfl)
  intro k h1 h2
  have hk : k < 3 := by rw [applyXRayEffect_length] at h1; exact h1
  rw [getElem_eq_getD _ _ h1, getElem_eq_getD _ _ h2,
    applyXRayEffect_getD _ _ (by simpa using hk)]
  interval_cases k <;> simp [xrayChannelAt, xrayChannel_0]

/-- The red byte of the single-pixel buffer `[128, 0, 0, 255]` comes out
as 126. -/
theorem applyXRayEffect_pixel_red : (applyXRayEffect [128, 0, 0, 255]).getD 0 0 = 126 := by
  rw [applyXRayEffect_getD _ 0 (by norm_num)]
  simpa [xrayChannelAt] using xrayChannel_128

/-- On byte input, the stored channel value is the spec formula followed
by the clamped-store rounding. -/
theorem xrayChannel_eq_formula (v : ℕ) (h : v ≤ 255) :
    xrayChannel v = toUint8Clamp (clampFormula v) := by
  rw [xrayChannel, invStore_eq v h, contrastStore, clampFormula,
    Nat.cast_sub h]
  norm_num

/-! ## Error-handling contract as the spec states it -/

inductive XRayErrorKind where
  | InvalidInput

/-- The transform as the spec's error-handling section describes it: fail
with `InvalidInput` when the buffer has zero length or a byte count that is
not a multiple of 4, otherwise return the transformed buffer. Stated from
the spec's words for comparison with `applyXRayEffect`, which is the code's
actual (total) behaviour. -/
def applyXRayEffectSpec (l : List ℕ) : Except XRayErrorKind (List ℕ) :=
  if l.length = 0 ∨ l.length % 4 ≠ 0 then Except.error XRayErrorKind.InvalidInput
  else Except.ok (applyXRayPure l)

/-! ## Mock analysis confidence

`processImage` builds `confidence: Math.floor(Math.random() * 40) + 60`,
with `Math.random()` drawing a value in `[0, 1)`. -/

/-- `Math.floor(r * 40) + 60` for a draw `r` of the random source. -/
def mockConfidence (r : ℚ) : ℤ := ⌊r * 40⌋ + 60

/-! ## View-state wiring of the `XRayProcessor` component -/

/-- The mock analysis object built by `processImage`. -/
structure AnalysisResult where
  hasPneumonia : Bool
  confidence : ℤ
  findings : List String

/-- The React state of the `XRayProcessor` component: the four `useState`
slots plus the file-input element's value. -/
structure XRayProcessorState where
  selectedImage : Option String
  processedImage : Option String
  isProcessing : Bool
  analysisResult : Option AnalysisResult
  fileInputValue : String

/-- `handleImageUpload`: when a file is selected, the reader's `onload`
stores its data URL in `selectedImage` and clears `processedImage` and
`analysisResult`; with no file nothing happens. -/
def handleImageUpload (s : XRayProcessorState) (file : Option String) :
    XRayProcessorState :=
  match file with
  | some dataUrl =>
    { s with selectedImage := some dataUrl, processedImage := none, analysisResult := none }
  | none => s

/-- `resetProcessor`: clear the three image/result slots and empty the
file input. -/
def resetProcessor (s : XRayProcessorState) : XRayProcessorState :=
  { s with selectedImage := none, processedImage := none, analysisResult := none,
           fileInputValue := "" }

/-- `processImage` up to its first suspension point: it returns unchanged
when no image is selected, otherwise sets `isProcessing` and leaves two
continuations pending — the awaited `applyXRayEffect` resolution and the
2-second `setTimeout` — which the component never cancels. -/
def processImageStart (s : XRayProcessorState) : XRayProcessorState :=
  match s.selectedImage with
  | none => s
  | some _ => { s with isProcessing := true }

/-- The continuation after `await applyXRayEffect(selectedImage)`:
`setProcessedImage(xrayImage)`. It runs on whatever state the component
has when the promise resolves. -/
def processImageResolve (s : XRayProcessorState) (xrayImage : String) :
    XRayProcessorState :=
  { s with processedImage := some xrayImage }

/-- The body of the 2-second `setTimeout`: `setAnalysisResult(mockResult)`
then `setIsProcessing(false)`. It runs on whatever state the component has
when the timer fires, regardless of resets or uploads in between. -/
def processImageTimer (s : XRayProcessorState) (mockResult : AnalysisResult) :
    XRayProcessorState :=
  { s with analysisResult := some mockResult, isProcessing := false }

/-- A concrete uploaded image, as the data URL held in `selectedImage`. -/
def uploadedDataUrl : String := "data-url-of-uploaded-xray"

/-- A concrete component state with an image selected and no results yet. -/
def selectedOnlyState : XRayProcessorState :=
  { selectedImage := some uploadedDataUrl, processedImage := none,
    isProcessing := false, analysisResult := none, fileInputValue := "" }

/-- The mock result the timer callback stores. -/
def mockResultExample : AnalysisResult :=
  { hasPneumonia := false, confidence := 80,
    findings := ["Lung fields appear clear"] }

/-! ## Claims -/

/-- C1 (counterexample): the output byte is not the exact clamp value.
For the pixel `[128, 0, 0, 255]` the red output byte is 126, while
`clamp(0,255,(255-128-128)*1.5+128) = 126.5`. -/
theorem applyXRayEffect_not_exact_formula :
    ((applyXRayEffect [128, 0, 0, 255]).getD 0 0 : ℚ) ≠ clampFormula 128 := by
  rw [applyXRayEffect_pixel_red]
  have : clampFormula 128 = 253/2 := by
    norm_num [clampFormula, clampQ, minQ, maxQ, contrastRaw]
  rw [this]
  norm_num

/-- C1 (amended): for every byte buffer and every colour-channel index,
the output byte is `clamp(0,255,(255-v-128)*1.5+128)` rounded by the
`Uint8ClampedArray` store (nearest integer, ties to even), computed from
the input byte `v` at that index alone. -/
theorem applyXRayEffect_channel_formula (l : List ℕ) (hbytes : ∀ v ∈ l, v ≤ 255)
    (k : ℕ) (hk : k < l.length) (h3 : k % 4 ≠ 3) :
    (applyXRayEffect l).getD k 0 = toUint8Clamp (clampFormula (l.getD k 0)) := by
  have hv : l.getD k 0 ≤ 255 := by
    rw [← getElem_eq_getD l k hk]
    exact hbytes _ (List.getElem_mem hk)
  rw [applyXRayEffect_getD l k hk, xrayChannelAt, if_neg h3,
    xrayChannel_eq_formula _ hv]

/-- C1 (witness): the amended statement at the concrete pixel
`[128, 0, 0, 255]`, channel 0. -/
theorem applyXRayEffect_channel_formula_witness :
    (applyXRayEffect [128, 0, 0, 255]).getD 0 0 = toUint8Clamp (clampFormula 128) :=
  applyXRayEffect_channel_formula [128, 0, 0, 255] (by decide) 0 (by decide) (by decide)

/-- C2 (counterexample): the code never raises `InvalidInput`. The empty
buffer, which the spec says must fail, is processed and returned empty,
and a malformed 3-byte buffer is processed as well; only the spec-side
model `applyXRayEffectSpec` fails. -/
theorem applyXRayEffect_no_invalid_input :
    applyXRayEffectSpec [] = Except.error XRayErrorKind.InvalidInput ∧
      applyXRayEffect [] = [] ∧ applyXRayEffect [0, 0, 0] = [255, 255, 255] :=
  ⟨rfl, applyXRayEffect_nil, applyXRayEffect_malformed⟩

/-- C2 (amended): the transform has no error conditions at all: it accepts
every buffer, including empty buffers and buffers whose byte count is not a
multiple of 4, always returning a same-length buffer; on the empty buffer
it returns the empty buffer. -/
theorem applyXRayEffect_total :
    (∀ l : List ℕ, (applyXRayEffect l).length = l.length) ∧ applyXRayEffect [] = [] :=
  ⟨applyXRayEffect_length, applyXRayEffect_nil⟩

/-- C3: the in-place six-write loop computes exactly the pure fresh-buffer
map `applyXRayPure`: every output byte is a function of the input byte at
the same index alone, so the transform is a pure function over buffers and
the source buffer value is never consumed destructively. -/
theorem applyXRayEffect_eq_applyXRayPure (l : List ℕ) :
    applyXRayEffect l = applyXRayPure l := by
  apply List.ext_getElem (by rw [applyXRayEffect_length, applyXRayPure_length])
  intro k h1 h2
  have hk : k < l.length := by rw [applyXRayEffect_length] at h1; exact h1
  rw [getElem_eq_getD _ _ h1, getElem_eq_getD _ _ h2,
    applyXRayEffect_getD l k hk, applyXRayPure_getD l k hk]

/-- C4 (counterexample): the spec's boundary table is wrong at `v = 128`:
the raw value is `126.5`, not `127.25`, and the stored byte is 126, not
(approximately) 127. -/
theorem xrayChannel_128_not_spec_table :
    clampFormula 128 ≠ 509/4 ∧ xrayChannel 128 ≠ 127 := by
  constructor
  · have : clampFormula 128 = 253/2 := by
      norm_num [clampFormula, clampQ, minQ, maxQ, contrastRaw]
    rw [this]; norm_num
  · rw [xrayChannel_128]; omega

/-- C4 (amended): the boundary values are `v=0 ↦ 255` (raw `318.5` clamps
to 255), `v=128 ↦ 126` (raw value `126.5`, rounded to even), and
`v=255 ↦ 0` (raw `-64` clamps to 0). -/
theorem xrayChannel_boundary_values :
    contrastRaw (255 - (0 : ℚ)) = 637/2 ∧ clampFormula 0 = 255 ∧ xrayChannel 0 = 255 ∧
      clampFormula 128 = 253/2 ∧ xrayChannel 128 = 126 ∧
      contrastRaw (255 - (255 : ℚ)) = -64 ∧ clampFormula 255 = 0 ∧ xrayChannel 255 = 0 := by
  refine ⟨by norm_num [contrastRaw], ?_, xrayChannel_0, ?_, xrayChannel_128, by
    norm_num [contrastRaw], ?_, xrayChannel_255⟩ <;>
    norm_num [clampFormula, clampQ, minQ, maxQ, contrastRaw]

/-- C5: alpha bytes (every index ≡ 3 mod 4) pass through the transform
bit-for-bit. -/
theorem applyXRayEffect_preserves_alpha (l : List ℕ) (k : ℕ)
    (hk : k < l.length) (h3 : k % 4 = 3) :
    (applyXRayEffect l).getD k 0 = l.getD k 0 := by
  rw [applyXRayEffect_getD l k hk, xrayChannelAt, if_pos h3]

/-- C5 (witness): the alpha byte of the single pixel `[1, 2, 3, 4]` is
returned unchanged. -/
theorem applyXRayEffect_preserves_alpha_witness :
    (applyXRayEffect [1, 2, 3, 4]).getD 3 0 = 4 :=
  applyXRayEffect_preserves_alpha [1, 2, 3, 4] 3 (by decide) (by decide)

/-- C6: the transform preserves the buffer length (and hence the
width × height × 4 shape of the bitmap). -/
theorem applyXRayEffect_dimension_preserving (l : List ℕ) :
    (applyXRayEffect l).length = l.length :=
  applyXRayEffect_length l

/-- C7: every colour-channel byte of the output lies in `[0, 255]`. -/
theorem applyXRayEffect_channel_in_range (l : List ℕ) (k : ℕ)
    (hk : k < l.length) (h3 : k % 4 ≠ 3) :
    0 ≤ (applyXRayEffect l).getD k 0 ∧ (applyXRayEffect l).getD k 0 ≤ 255 := by
  refine ⟨Nat.zero_le _, ?_⟩
  rw [applyXRayEffect_getD l k hk, xrayChannelAt, if_neg h3, xrayChannel, contrastStore]
  exact toUint8Clamp_le _

/-- C7 (witness): the range bound at the concrete pixel `[128, 0, 0, 255]`,
channel 0. -/
theorem applyXRayEffect_channel_in_range_witness :
    0 ≤ (applyXRayEffect [128, 0, 0, 255]).getD 0 0 ∧
      (applyXRayEffect [128, 0, 0, 255]).getD 0 0 ≤ 255 :=
  applyXRayEffect_channel_in_range [128, 0, 0, 255] 0 (by decide) (by decide)

/-- C8: the transform is not an involution: the channel value 128 maps to
126 and then to 130, not back to 128. -/
theorem xrayChannel_not_involutive :
    ∃ v : ℕ, v ≤ 255 ∧ xrayChannel (xrayChannel v) ≠ v := by
  refine ⟨128, by omega, ?_⟩
  rw [xrayChannel_128, xrayChannel_126]
  omega

/-- C9: for every draw `r ∈ [0, 1)` of the random source, the mock
confidence `⌊r·40⌋ + 60` lies in `[60, 99]`; in particular it is never
the 100 promised by the adjacent comment. -/
theorem mockConfidence_range (r : ℚ) (h0 : 0 ≤ r) (h1 : r < 1) :
    60 ≤ mockConfidence r ∧ mockConfidence r ≤ 99 ∧ mockConfidence r ≠ 100 := by
  have hlo : (0 : ℤ) ≤ ⌊r * 40⌋ := Int.floor_nonneg.mpr (by positivity)
  have hhi : ⌊r * 40⌋ < 40 := by
    rw [Int.floor_lt]
    push_cast
    nlinarith
  unfold mockConfidence
  omega

/-- C9 (witness): the bound at the concrete draw `r = 1/2`. -/
theorem mockConfidence_range_witness :
    (0 : ℚ) ≤ 1/2 ∧ (1/2 : ℚ) < 1 ∧
      (60 ≤ mockConfidence (1/2) ∧ mockConfidence (1/2) ≤ 99 ∧ mockConfidence (1/2) ≠ 100) :=
  ⟨by norm_num, by norm_num, mockConfidence_range (1/2) (by norm_num) (by norm_num)⟩

/-- C10 (counterexample): the "always refers to the currently selected
image" part of the claim fails on the code. Start from a state with an
image selected, run `processImage` (its 2-second timer is now pending and
is never cancelled), click Reset, then let the timer fire:
`analysisResult` is non-`none` while `selectedImage` is `none`, so the
surviving result belongs to no currently selected image. -/
theorem stale_analysis_survives_reset :
    (processImageTimer (resetProcessor (processImageStart selectedOnlyState))
        mockResultExample).analysisResult = some mockResultExample ∧
      (processImageTimer (resetProcessor (processImageStart selectedOnlyState))
        mockResultExample).selectedImage = none :=
  ⟨rfl, rfl⟩

/-- C10 (amended): the two handlers' immediate post-states are as claimed:
selecting a new file stores it and clears both result slots, and resetting
clears all three slots. (The claim's further consequence — that a
non-`none` result always belongs to the currently selected image — does
not hold, because the pending `processImage` continuations are never
cancelled; see the counterexample.) -/
theorem upload_and_reset_clear_stale_results (s : XRayProcessorState) (dataUrl : String) :
    (handleImageUpload s (some dataUrl)).selectedImage = some dataUrl ∧
      (handleImageUpload s (some dataUrl)).processedImage = none ∧
      (handleImageUpload s (some dataUrl)).analysisResult = none ∧
      (resetProcessor s).selectedImage = none ∧
      (resetProcessor s).processedImage = none ∧
      (resetProcessor s).analysisResult = none :=
  ⟨rfl, rfl, rfl, rfl, rfl, rfl⟩
